import Mathlib

set_option maxRecDepth 8000

/-
Verification of the token-based authentication core of the safe_user
backend. The functions generate_jwt, validate_jwt and jwt_validator are
embedded from src/auth.rs; the HTTP handler create_jwt_for_user is
embedded from src/handlers.rs. The jsonwebtoken library that those
functions call is not part of the repository sources, so the compact
token codec (three dot-separated base64url segments, HMAC-style
signature, default header and validation) is modelled from the spec.
-/

namespace SafeUser

/-- The base64url alphabet, in value order. -/
def b64Table : List Char := "ABCDEFGHIJKLMNOPQRSTUVWXYZabcdefghijklmnopqrstuvwxyz0123456789-_".data

/-- The base64url character of a 6-bit value. -/
def b64c (n : Nat) : Char := b64Table.getD n 'A'

/-- The 6-bit value of a base64url character, none for a character outside the alphabet. -/
def b64v (c : Char) : Option Nat := b64Table.findIdx? (fun d => d = c)

/-- Regroup a byte sequence into 6-bit values, as base64 does, without padding. -/
def sixbits : List Nat → List Nat
  | [] => []
  | [a] => [a / 4, a % 4 * 16]
  | [a, b] => [a / 4, a % 4 * 16 + b / 16, b % 16 * 4]
  | a :: b :: c :: r => a / 4 :: (a % 4 * 16 + b / 16) :: (b % 16 * 4 + c / 64) :: c % 64 :: sixbits r

/-- Regroup 6-bit values back into bytes; fails on a length that no byte string produces. -/
def unsix : List Nat → Option (List Nat)
  | [] => some []
  | [_] => none
  | [w, x] => some [w * 4 + x / 16]
  | [w, x, y] => some [w * 4 + x / 16, x % 16 * 16 + y / 4]
  | w :: x :: y :: z :: r =>
    (unsix r).map (fun bs => (w * 4 + x / 16) :: (x % 16 * 16 + y / 4) :: (y % 4 * 64 + z) :: bs)

/-- Translate a character sequence back to 6-bit values; fails on a character outside the alphabet. -/
def b64vals : List Char → Option (List Nat)
  | [] => some []
  | c :: r =>
    match b64v c, b64vals r with
    | some v, some vs => some (v :: vs)
    | _, _ => none

/-- base64url encoding of a byte sequence. -/
def b64Encode (bs : List Nat) : List Char := (sixbits bs).map b64c

/-- base64url decoding to a byte sequence. -/
def b64SegBytes (l : List Char) : Option (List Nat) := (b64vals l).bind unsix

theorem b64v_b64c_fin : ∀ n : Fin 64, b64v (b64c n.val) = some n.val := by decide

theorem b64v_b64c {n : Nat} (h : n < 64) : b64v (b64c n) = some n := b64v_b64c_fin ⟨n, h⟩

theorem b64v_dot : b64v '.' = none := by decide

theorem b64c_ne_dot {n : Nat} (h : n < 64) : b64c n ≠ '.' := by
  intro heq
  have h1 := b64v_b64c h
  rw [heq, b64v_dot] at h1
  exact Option.noConfusion h1

theorem sixbits_lt : ∀ bs : List Nat, (∀ b ∈ bs, b < 256) → ∀ v ∈ sixbits bs, v < 64 := by
  intro bs
  induction bs using sixbits.induct with
  | case1 =>
    intro _ v hv
    simp [sixbits] at hv
  | case2 a =>
    intro hb v hv
    have ha : a < 256 := hb a (by simp)
    simp [sixbits] at hv
    rcases hv with h | h <;> omega
  | case3 a b =>
    intro hb v hv
    have ha : a < 256 := hb a (by simp)
    have hb2 : b < 256 := hb b (by simp)
    simp [sixbits] at hv
    rcases hv with h | h | h <;> omega
  | case4 a b c r ih =>
    intro hb v hv
    have ha : a < 256 := hb a (by simp)
    have hb2 : b < 256 := hb b (by simp)
    have hc : c < 256 := hb c (by simp)
    simp [sixbits] at hv
    rcases hv with h | h | h | h | h
    · omega
    · omega
    · omega
    · omega
    · exact ih (fun x hx => hb x (by simp [hx])) v h

theorem unsix_sixbits : ∀ bs : List Nat, (∀ b ∈ bs, b < 256) → unsix (sixbits bs) = some bs := by
  intro bs
  induction bs using sixbits.induct with
  | case1 => intro _; rfl
  | case2 a =>
    intro hb
    have ha : a < 256 := hb a (by simp)
    simp [sixbits, unsix]
    omega
  | case3 a b =>
    intro hb
    have ha : a < 256 := hb a (by simp)
    have hb2 : b < 256 := hb b (by simp)
    simp [sixbits, unsix]
    constructor <;> omega
  | case4 a b c r ih =>
    intro hb
    have ha : a < 256 := hb a (by simp)
    have hb2 : b < 256 := hb b (by simp)
    have hc : c < 256 := hb c (by simp)
    have hr := ih (fun x hx => hb x (by simp [hx]))
    simp [sixbits, unsix, hr]
    refine ⟨by omega, by omega, by omega⟩

theorem b64vals_map : ∀ l : List Nat, (∀ v ∈ l, v < 64) → b64vals (l.map b64c) = some l := by
  intro l
  induction l with
  | nil => intro _; rfl
  | cons v vs ih =>
    intro h
    have hv : v < 64 := h v (by simp)
    have hvs := ih (fun x hx => h x (by simp [hx]))
    simp [b64vals, b64v_b64c hv, hvs]

theorem b64SegBytes_encode {bs : List Nat} (h : ∀ b ∈ bs, b < 256) :
    b64SegBytes (b64Encode bs) = some bs := by
  unfold b64SegBytes b64Encode
  rw [b64vals_map (sixbits bs) (sixbits_lt bs h)]
  exact unsix_sixbits bs h

theorem b64Encode_ne_dot {bs : List Nat} (h : ∀ b ∈ bs, b < 256) :
    ∀ c ∈ b64Encode bs, c ≠ '.' := by
  intro c hc
  unfold b64Encode at hc
  rcases List.mem_map.mp hc with ⟨v, hv, rfl⟩
  exact b64c_ne_dot (sixbits_lt bs h v hv)

/-- The three code-point bytes of a character. Modelled from the spec: the
byte serialization of text before base64url encoding is modelled as a
fixed-width big-endian encoding of each code point. -/
def charBytes (c : Char) : List Nat := [c.toNat / 65536, c.toNat / 256 % 256, c.toNat % 256]

/-- Byte serialization of a character sequence. -/
def charsToBytes : List Char → List Nat
  | [] => []
  | c :: r => c.toNat / 65536 :: c.toNat / 256 % 256 :: c.toNat % 256 :: charsToBytes r

/-- Inverse of charsToBytes; fails when the bytes do not spell valid code points. -/
def bytesToChars : List Nat → Option (List Char)
  | [] => some []
  | a :: b :: c :: r =>
    let n := a * 65536 + b * 256 + c
    if Nat.isValidChar n then (bytesToChars r).map (fun l => Char.ofNat n :: l) else none
  | _ => none

theorem char_toNat_valid (c : Char) : Nat.isValidChar c.toNat := c.valid

theorem char_toNat_lt (c : Char) : c.toNat < 1114112 := by
  rcases char_toNat_valid c with h | ⟨_, h⟩
  · omega
  · exact h

theorem charsToBytes_lt : ∀ l : List Char, ∀ b ∈ charsToBytes l, b < 256 := by
  intro l
  induction l with
  | nil => intro b hb; simp [charsToBytes] at hb
  | cons c r ih =>
    intro b hb
    have hc := char_toNat_lt c
    simp [charsToBytes] at hb
    rcases hb with h | h | h | h
    · omega
    · omega
    · omega
    · exact ih b h

theorem bytesToChars_charsToBytes : ∀ l : List Char, bytesToChars (charsToBytes l) = some l := by
  intro l
  induction l with
  | nil => rfl
  | cons c r ih =>
    have hc := char_toNat_lt c
    have hn : c.toNat / 65536 * 65536 + c.toNat / 256 % 256 * 256 + c.toNat % 256 = c.toNat := by
      omega
    simp only [charsToBytes, bytesToChars, hn, ih]
    rw [if_pos (char_toNat_valid c)]
    simp [Char.ofNat_toNat]

/-- The decimal digit character of a value below ten. -/
def digitChar (d : Nat) : Char := Char.ofNat (48 + d)

/-- The decimal digit characters of a number, most significant first. -/
def natChars (n : Nat) : List Char :=
  if n < 10 then [digitChar n] else natChars (n / 10) ++ [digitChar (n % 10)]
  decreasing_by exact Nat.div_lt_self (by omega) (by omega)

/-- The numeric value of a decimal digit character. -/
def digitVal (c : Char) : Nat := c.toNat - 48

/-- The number spelled by a sequence of decimal digit characters. -/
def charsToNat (l : List Char) : Nat := l.foldl (fun a c => a * 10 + digitVal c) 0

theorem digit_facts : ∀ d : Fin 10, (digitChar d.val).isDigit = true ∧ digitVal (digitChar d.val) = d.val := by
  decide

theorem foldl_natChars : ∀ n a : Nat,
    (natChars n).foldl (fun a c => a * 10 + digitVal c) a = a * 10 ^ (natChars n).length + n := by
  intro n
  induction n using natChars.induct with
  | case1 n h =>
    intro a
    rw [natChars, if_pos h]
    simp [List.foldl, (digit_facts ⟨n, h⟩).2]
  | case2 n h ih =>
    intro a
    rw [natChars, if_neg h]
    rw [List.foldl_append]
    rw [ih a]
    have hd : digitVal (digitChar (n % 10)) = n % 10 := (digit_facts ⟨n % 10, by omega⟩).2
    simp only [List.foldl, hd, List.length_append, List.length_singleton]
    rw [pow_succ]
    have : a * (10 ^ (natChars (n / 10)).length * 10) = a * 10 ^ (natChars (n / 10)).length * 10 := by
      ring
    rw [this]
    omega

theorem charsToNat_natChars (n : Nat) : charsToNat (natChars n) = n := by
  unfold charsToNat
  rw [foldl_natChars]
  simp

theorem natChars_digits : ∀ n : Nat, ∀ c ∈ natChars n, c.isDigit = true := by
  intro n
  induction n using natChars.induct with
  | case1 n h =>
    intro c hc
    rw [natChars, if_pos h] at hc
    simp at hc
    subst hc
    exact (digit_facts ⟨n, h⟩).1
  | case2 n h ih =>
    intro c hc
    rw [natChars, if_neg h] at hc
    rcases List.mem_append.mp hc with h1 | h1
    · exact ih c h1
    · simp at h1
      subst h1
      exact (digit_facts ⟨n % 10, by omega⟩).1

theorem natChars_ne_nil (n : Nat) : natChars n ≠ [] := by
  rw [natChars]
  split <;> simp

/-- Consume an expected literal from the front of the input, returning the rest. -/
def matchLit : List Char → List Char → Option (List Char)
  | [], l => some l
  | _ :: _, [] => none
  | p :: ps, c :: cs => if c = p then matchLit ps cs else none

theorem matchLit_append : ∀ p rest : List Char, matchLit p (p ++ rest) = some rest := by
  intro p
  induction p with
  | nil => intro rest; rfl
  | cons c cs ih => intro rest; simp [matchLit, ih]

/-- JSON string escaping of quote and backslash characters. -/
def escapeChars : List Char → List Char
  | [] => []
  | c :: r => if c = '"' ∨ c = '\\' then '\\' :: c :: escapeChars r else c :: escapeChars r

/-- Scan a JSON string body up to its closing quote, undoing escapes; returns
the body and the input after the quote. -/
def scanString : List Char → Option (List Char × List Char)
  | [] => none
  | c :: rest =>
    if c = '"' then some ([], rest)
    else if c = '\\' then
      match rest with
      | [] => none
      | d :: rest2 => (scanString rest2).map (fun p => (d :: p.1, p.2))
    else (scanString rest).map (fun p => (c :: p.1, p.2))

theorem scanString_escape : ∀ s rest : List Char,
    scanString (escapeChars s ++ '"' :: rest) = some (s, rest) := by
  intro s
  induction s with
  | nil =>
    intro rest
    show scanString ('"' :: rest) = some ([], rest)
    rw [scanString.eq_def]
    simp
  | cons c cs ih =>
    intro rest
    by_cases hc : c = '"' ∨ c = '\\'
    · simp only [escapeChars, if_pos hc, List.cons_append]
      rw [scanString.eq_def]
      simp [ih]
    · push_neg at hc
      simp only [escapeChars, if_neg (show ¬(c = '"' ∨ c = '\\') by tauto), List.cons_append]
      rw [scanString.eq_def]
      simp [hc.1, hc.2, ih]

/-- Split off the longest leading run of decimal digit characters. -/
def spanD : List Char → List Char × List Char
  | [] => ([], [])
  | c :: r => if c.isDigit then (c :: (spanD r).1, (spanD r).2) else ([], c :: r)

theorem spanD_append : ∀ l1 l2 : List Char, (∀ c ∈ l1, c.isDigit = true) →
    (∀ c rest, l2 = c :: rest → c.isDigit = false) → spanD (l1 ++ l2) = (l1, l2) := by
  intro l1
  induction l1 with
  | nil =>
    intro l2 _ h2
    cases l2 with
    | nil => rfl
    | cons c rest =>
      simp only [List.nil_append, spanD]
      rw [if_neg (by rw [h2 c rest rfl]; simp)]
  | cons c cs ih =>
    intro l2 h1 h2
    have hc : c.isDigit = true := h1 c (by simp)
    have ihr := ih l2 (fun x hx => h1 x (by simp [hx])) h2
    simp [spanD, hc, List.append_eq, ihr]

/-- Split a character sequence at every dot. -/
def splitDots : List Char → List (List Char)
  | [] => [[]]
  | c :: r =>
    if c = '.' then [] :: splitDots r
    else
      match splitDots r with
      | [] => [[c]]
      | p :: ps => (c :: p) :: ps

theorem splitDots_ne_nil : ∀ l : List Char, splitDots l ≠ [] := by
  intro l
  induction l with
  | nil => simp [splitDots]
  | cons c r ih =>
    rw [splitDots]
    split
    · simp
    · split
      · simp
      · simp

theorem splitDots_dotfree : ∀ l : List Char, (∀ c ∈ l, c ≠ '.') → splitDots l = [l] := by
  intro l
  induction l with
  | nil => intro _; rfl
  | cons c r ih =>
    intro h
    rw [splitDots, if_neg (h c (by simp)), ih (fun x hx => h x (by simp [hx]))]

theorem splitDots_append : ∀ a rest : List Char, (∀ c ∈ a, c ≠ '.') →
    splitDots (a ++ '.' :: rest) = a :: splitDots rest := by
  intro a
  induction a with
  | nil =>
    intro rest _
    simp [splitDots]
  | cons c cs ih =>
    intro rest h
    have ihr := ih rest (fun x hx => h x (by simp [hx]))
    simp only [List.cons_append, splitDots, List.append_eq, ihr]
    rw [if_neg (h c (by simp))]

theorem splitDots_three {h p s : List Char} (hh : ∀ c ∈ h, c ≠ '.') (hp : ∀ c ∈ p, c ≠ '.')
    (hs : ∀ c ∈ s, c ≠ '.') : splitDots (h ++ '.' :: (p ++ '.' :: s)) = [h, p, s] := by
  rw [splitDots_append h _ hh, splitDots_append p _ hp, splitDots_dotfree s hs]

/-- Modelled from the spec: the signing algorithms a token header can declare.
The verifier expects the default scheme HS256. -/
inductive Algorithm where
  | HS256
  | HS384
  | HS512
  | RS256
deriving DecidableEq

/-- The standard name of an algorithm, as it appears in the header. -/
def algName : Algorithm → String
  | .HS256 => "HS256"
  | .HS384 => "HS384"
  | .HS512 => "HS512"
  | .RS256 => "RS256"

/-- The algorithm declared by a standard name, none for an unknown name. -/
def algFromName (s : String) : Option Algorithm :=
  if s = "HS256" then some .HS256
  else if s = "HS384" then some .HS384
  else if s = "HS512" then some .HS512
  else if s = "RS256" then some .RS256
  else none

/-- Modelled from the spec: the token header; Header.default declares HS256. -/
structure Header where
  alg : Algorithm
deriving DecidableEq

def Header.default : Header := ⟨Algorithm.HS256⟩

/-- Modelled from the spec: the verification settings; the default expects
algorithm HS256, checks expiry, and fails whenever now exceeds expires_at. -/
structure Validation where
  algorithms : List Algorithm
  validate_exp : Bool
  leeway : Nat
deriving DecidableEq

def Validation.default : Validation := ⟨[Algorithm.HS256], true, 0⟩

/-- Embeds the Claims struct of src/auth.rs: the subject and the expiry
instant in seconds since the epoch. -/
structure Claims where
  sub : String
  exp : Nat
deriving DecidableEq

/-- Modelled from the spec: the error taxonomy of the token library; all
cases surface as one undifferentiated VerifyError to callers. -/
inductive JwtError where
  | InvalidToken
  | InvalidSignature
  | ExpiredSignature
  | InvalidAlgorithm
  | Base64Error
  | JsonError
deriving DecidableEq

/-- The serialized JSON of a header declaring the given algorithm. -/
def headerChars (a : Algorithm) : List Char :=
  "\x7b\"typ\":\"JWT\",\"alg\":\"".data ++ (algName a).data ++ "\"\x7d".data

/-- Parse a serialized header back to the algorithm it declares. -/
def parseHeader (l : List Char) : Option Algorithm :=
  (matchLit "\x7b\"typ\":\"JWT\",\"alg\":\"".data l).bind fun r =>
    (scanString r).bind fun p =>
      if p.2 = ['\x7d'] then algFromName (String.mk p.1) else none

/-- The serialized JSON of a Claims value, with quote and backslash escaping
in the subject. -/
def claimsChars (c : Claims) : List Char :=
  "\x7b\"sub\":\"".data ++ escapeChars c.sub.data ++ '"' :: (",\"exp\":".data ++ natChars c.exp ++ ['\x7d'])

/-- Parse a serialized Claims value. -/
def parseClaims (l : List Char) : Option Claims :=
  (matchLit "\x7b\"sub\":\"".data l).bind fun r =>
    (scanString r).bind fun p =>
      (matchLit ",\"exp\":".data p.2).bind fun r3 =>
        if (spanD r3).1 ≠ [] ∧ (spanD r3).2 = ['\x7d'] then
          some ⟨String.mk p.1, charsToNat (spanD r3).1⟩
        else none

theorem algName_no_escape : ∀ a : Algorithm, escapeChars (algName a).data = (algName a).data := by
  intro a
  cases a <;> decide

theorem parseHeader_headerChars : ∀ a : Algorithm, parseHeader (headerChars a) = some a := by
  intro a
  unfold parseHeader headerChars
  rw [List.append_assoc, matchLit_append, Option.some_bind]
  have h1 : (algName a).data ++ "\"\x7d".data = escapeChars (algName a).data ++ '"' :: ['\x7d'] := by
    rw [algName_no_escape]
  rw [h1, scanString_escape, Option.some_bind]
  cases a <;> decide

theorem parseClaims_claimsChars : ∀ c : Claims, parseClaims (claimsChars c) = some c := by
  intro c
  unfold parseClaims claimsChars
  rw [List.append_assoc, matchLit_append, Option.some_bind, scanString_escape, Option.some_bind]
  rw [show (",\"exp\":".data ++ natChars c.exp ++ ['\x7d'] :
      List Char) = ",\"exp\":".data ++ (natChars c.exp ++ ['\x7d']) from List.append_assoc _ _ _]
  rw [matchLit_append, Option.some_bind]
  rw [spanD_append (natChars c.exp) ['\x7d'] (natChars_digits c.exp)
    (by intro d rest h; cases h; decide)]
  rw [if_pos ⟨natChars_ne_nil c.exp, rfl⟩]
  rw [charsToNat_natChars]

/-- Modelled from the spec: the symmetric HMAC-style keyed signature over the
signing input. Only three properties of the real HMAC are used by the spec
claims: the verifier recomputes the identical value, the value depends on the
declared algorithm and the key, and the value is a byte sequence. It is
modelled as the length-tagged serialization of algorithm, key and message. -/
def hmacBytes (alg : Algorithm) (key : String) (msg : List Char) : List Nat :=
  charsToBytes (algName alg).data ++ charsToBytes (natChars key.data.length) ++
    charsToBytes key.data ++ charsToBytes msg

theorem hmacBytes_lt (alg : Algorithm) (key : String) (msg : List Char) :
    ∀ b ∈ hmacBytes alg key msg, b < 256 := by
  intro b hb
  unfold hmacBytes at hb
  rcases List.mem_append.mp hb with h | h
  swap
  · exact charsToBytes_lt msg b h
  rcases List.mem_append.mp h with h1 | h1
  swap
  · exact charsToBytes_lt key.data b h1
  rcases List.mem_append.mp h1 with h2 | h2
  · exact charsToBytes_lt (algName alg).data b h2
  · exact charsToBytes_lt (natChars key.data.length) b h2

/-- base64url decoding of a segment straight to text. -/
def b64SegToChars (l : List Char) : Option (List Char) := (b64SegBytes l).bind bytesToChars

theorem b64SegToChars_encode (l : List Char) :
    b64SegToChars (b64Encode (charsToBytes l)) = some l := by
  unfold b64SegToChars
  rw [b64SegBytes_encode (charsToBytes_lt l), Option.some_bind, bytesToChars_charsToBytes]

/-- Modelled from the spec: issuance serializes the header and the claims,
base64url-encodes both, signs the dot-joined pair with the keyed HMAC of the
header algorithm, and appends the base64url signature as the third segment. -/
def encodeToken (header : Header) (claims : Claims) (key : String) : String :=
  let hSeg := b64Encode (charsToBytes (headerChars header.alg))
  let pSeg := b64Encode (charsToBytes (claimsChars claims))
  let sSeg := b64Encode (hmacBytes header.alg key (hSeg ++ '.' :: pSeg))
  String.mk (hSeg ++ '.' :: (pSeg ++ '.' :: sSeg))

/-- Modelled from the spec: verification splits the compact token into its
three dot-separated segments, decodes and parses the header, rejects a header
algorithm outside the expected set, recomputes and compares the signature
over the first two segments, decodes and parses the claims, and finally
rejects the token when now exceeds expires_at plus the leeway. -/
def decodeToken (key : String) (v : Validation) (now : Nat) (token : String) : Except JwtError Claims :=
  match splitDots token.data with
  | [hSeg, pSeg, sSeg] =>
    match b64SegToChars hSeg with
    | none => .error .Base64Error
    | some hChars =>
      match parseHeader hChars with
      | none => .error .JsonError
      | some alg =>
        if alg ∈ v.algorithms then
          if sSeg = b64Encode (hmacBytes alg key (hSeg ++ '.' :: pSeg)) then
            match b64SegToChars pSeg with
            | none => .error .Base64Error
            | some pChars =>
              match parseClaims pChars with
              | none => .error .JsonError
              | some claims =>
                if v.validate_exp && claims.exp + v.leeway < now then .error .ExpiredSignature
                else .ok claims
          else .error .InvalidSignature
        else .error .InvalidAlgorithm
  | _ => .error .InvalidToken

/-- A token is structurally a valid three-segment signed token when it splits
into three dot-separated segments, each segment is valid base64url, and the
first two decode to a parseable header and claims payload. -/
def wellFormedToken (g : String) : Bool :=
  match splitDots g.data with
  | [hSeg, pSeg, sSeg] =>
    match b64SegToChars hSeg, b64SegToChars pSeg with
    | some hChars, some pChars =>
      (parseHeader hChars).isSome && (parseClaims pChars).isSome && (b64SegBytes sSeg).isSome
    | _, _ => false
  | _ => false

theorem decodeToken_encodeToken (a : Algorithm) (claims : Claims) (key : String)
    (v : Validation) (now : Nat) :
    decodeToken key v now (encodeToken ⟨a⟩ claims key) =
      (if a ∈ v.algorithms then
        (if v.validate_exp && claims.exp + v.leeway < now then .error .ExpiredSignature
         else .ok claims)
       else .error .InvalidAlgorithm) := by
  unfold decodeToken encodeToken
  have hSplit := @splitDots_three
    (b64Encode (charsToBytes (headerChars a)))
    (b64Encode (charsToBytes (claimsChars claims)))
    (b64Encode (hmacBytes a key (b64Encode (charsToBytes (headerChars a)) ++
      '.' :: b64Encode (charsToBytes (claimsChars claims)))))
    (b64Encode_ne_dot (charsToBytes_lt (headerChars a)))
    (b64Encode_ne_dot (charsToBytes_lt (claimsChars claims)))
    (b64Encode_ne_dot (hmacBytes_lt a key _))
  dsimp only
  rw [hSplit]
  simp only [b64SegToChars_encode, parseHeader_headerChars, parseClaims_claimsChars,
    eq_self_iff_true, if_true]

/-- Embeds line 25 of src/auth.rs: the issuer reads the JWT_SECRET
environment variable and falls back to the constant secret when unset. -/
def generateJwtSecret (env : Option String) : String := env.getD "secret"

/-- Embeds line 46 of src/auth.rs: the verifier reads the JWT_SECRET
environment variable and falls back to the constant secret when unset. -/
def validateJwtSecret (env : Option String) : String := env.getD "secret"

/-- Embeds generate_jwt of src/auth.rs, lines 24 to 34. The env argument is
the state of the JWT_SECRET environment variable and now is the clock
reading in seconds since the epoch. -/
def generate_jwt (env : Option String) (now : Nat) (sub : String) : Except JwtError String :=
  let secret := generateJwtSecret env
  let expiration := now + 24 * 60 * 60
  let claims : Claims := { sub := sub, exp := expiration }
  Except.ok (encodeToken Header.default claims secret)

/-- Embeds validate_jwt of src/auth.rs, lines 45 to 51: decode the token
with the default validation settings and return its claims. -/
def validate_jwt (env : Option String) (now : Nat) (token : String) : Except JwtError Claims :=
  let secret := validateJwtSecret env
  let v := Validation.default
  decodeToken secret v now token

/-- The bearer credential extracted by the HTTP layer. -/
structure BearerAuth where
  token : String
deriving DecidableEq

/-- An actix error response value: a status code and a message. -/
structure ActixError where
  status : Nat
  message : String
deriving DecidableEq

/-- Embeds actix_web error ErrorUnauthorized: a 401 error with a message. -/
def ErrorUnauthorized (msg : String) : ActixError := ⟨401, msg⟩

/-- Embeds jwt_validator of src/auth.rs, lines 63 to 74: pass the request
through unchanged when the bearer token validates, otherwise pair a 401
error with the original request. -/
def jwt_validator {Req : Type} (env : Option String) (now : Nat) (req : Req)
    (credentials : BearerAuth) : Except (ActixError × Req) Req :=
  let token := credentials.token
  match validate_jwt env now token with
  | .ok _claims => .ok req
  | .error _ => .error (ErrorUnauthorized "Invalid token", req)

/-- Modelled from the spec: the HTTP layer invokes the gate ahead of the
target handler, runs the handler only when the gate passes the request, and
turns a gate failure into the error response without invoking the handler. -/
def applyGate {Req Resp : Type} (env : Option String) (now : Nat) (handler : Req → Resp)
    (onErr : ActixError → Resp) (req : Req) (credentials : BearerAuth) : Resp :=
  match jwt_validator env now req credentials with
  | .ok r => handler r
  | .error (e, _) => onErr e

/-- Embeds the User struct of src/models.rs. -/
structure User where
  id : Option String
  user_id : String
  name : String
  last_name : String
  email : String
  age : Option Int
  phone : Option String
  address : Option String
  birthdate : String
  place_birth : Option String
deriving DecidableEq

/-- The observable outcome of an HTTP handler: a status code with a JSON
body, or a process fault raised by an unguarded expect. -/
inductive HandlerOutcome where
  | response (status : Nat) (body : String)
  | panicked (msg : String)
deriving DecidableEq

/-- A JSON string body as actix serializes it for a plain string. -/
def jsonBody (s : String) : String := "\"" ++ s ++ "\""

/-- Embeds create_jwt_for_user of src/handlers.rs, lines 101 to 112: unwrap
the optional id with expect, generate a token for it, and answer 200 only
when the response text starts with the literal JWT prefix, else 500. The
starts_with test is embedded as a matchLit test over the same characters. -/
def create_jwt_for_user (env : Option String) (now : Nat) (info : User) : HandlerOutcome :=
  match info.id with
  | none => .panicked "REASON"
  | some idv =>
    let response :=
      match generate_jwt env now idv with
      | .ok token => token
      | .error _ => "Failed to generate JWT"
    if (matchLit "JWT:".data response.data).isSome then .response 200 (jsonBody response)
    else .response 500 (jsonBody response)

theorem validate_ok_wellFormed (env : Option String) (now : Nat) (g : String) :
    (validate_jwt env now g).isOk = true → wellFormedToken g = true := by
  intro h
  unfold validate_jwt decodeToken at h
  unfold wellFormedToken
  cases hsp : splitDots g.data with
  | nil => rw [hsp] at h; simp [Except.isOk, Except.toBool] at h
  | cons s1 t1 =>
    cases t1 with
    | nil => rw [hsp] at h; simp [Except.isOk, Except.toBool] at h
    | cons s2 t2 =>
      cases t2 with
      | nil => rw [hsp] at h; simp [Except.isOk, Except.toBool] at h
      | cons s3 t3 =>
        cases t3 with
        | cons s4 t4 => rw [hsp] at h; simp [Except.isOk, Except.toBool] at h
        | nil =>
          rw [hsp] at h
          simp only [] at h
          cases hhc : b64SegToChars s1 with
          | none => rw [hhc] at h; simp [Except.isOk, Except.toBool] at h
          | some hChars =>
            rw [hhc] at h
            simp only [] at h
            cases halg : parseHeader hChars with
            | none => rw [halg] at h; simp [Except.isOk, Except.toBool] at h
            | some alg =>
              rw [halg] at h
              simp only [] at h
              by_cases hmem : alg ∈ Validation.default.algorithms
              case neg => rw [if_neg hmem] at h; simp [Except.isOk, Except.toBool] at h
              case pos =>
                rw [if_pos hmem] at h
                by_cases hsig : s3 = b64Encode (hmacBytes alg (validateJwtSecret env) (s1 ++ '.' :: s2))
                case neg => rw [if_neg hsig] at h; simp [Except.isOk, Except.toBool] at h
                case pos =>
                  rw [if_pos hsig] at h
                  cases hpc : b64SegToChars s2 with
                  | none => rw [hpc] at h; simp [Except.isOk, Except.toBool] at h
                  | some pChars =>
                    rw [hpc] at h
                    simp only [] at h
                    cases hcl : parseClaims pChars with
                    | none => rw [hcl] at h; simp [Except.isOk, Except.toBool] at h
                    | some claims =>
                      have hs : (b64SegBytes s3).isSome = true := by
                        rw [hsig, b64SegBytes_encode (hmacBytes_lt _ _ _)]
                        rfl
                      simp [hhc, hpc, halg, hcl, hs]

theorem roundtrip_aux (env : Option String) (now : Nat) (s : String) :
    (generate_jwt env now s).bind (validate_jwt env now) =
      Except.ok { sub := s, exp := now + 24 * 60 * 60 } := by
  show validate_jwt env now
    (encodeToken Header.default { sub := s, exp := now + 24 * 60 * 60 } (generateJwtSecret env)) = _
  unfold validate_jwt
  rw [show generateJwtSecret env = validateJwtSecret env from rfl]
  rw [show Header.default = (⟨Algorithm.HS256⟩ : Header) from rfl]
  rw [decodeToken_encodeToken]
  rw [if_pos (show Algorithm.HS256 ∈ Validation.default.algorithms by decide)]
  have hc : ¬((Validation.default.validate_exp &&
      ((⟨s, now + 24 * 60 * 60⟩ : Claims).exp + Validation.default.leeway < now : Bool)) = true) := by
    simp [Validation.default]
  rw [if_neg hc]

/-- The expires_at instant carried in the payload segment of a compact token. -/
def tokenExp (t : String) : Option Nat :=
  match splitDots t.data with
  | [_, pSeg, _] => (b64SegToChars pSeg).bind fun pChars => (parseClaims pChars).map Claims.exp
  | _ => none

theorem tokenExp_encodeToken (hd : Header) (claims : Claims) (key : String) :
    tokenExp (encodeToken hd claims key) = some claims.exp := by
  unfold tokenExp encodeToken
  have hSplit := @splitDots_three
    (b64Encode (charsToBytes (headerChars hd.alg)))
    (b64Encode (charsToBytes (claimsChars claims)))
    (b64Encode (hmacBytes hd.alg key (b64Encode (charsToBytes (headerChars hd.alg)) ++
      '.' :: b64Encode (charsToBytes (claimsChars claims)))))
    (b64Encode_ne_dot (charsToBytes_lt (headerChars hd.alg)))
    (b64Encode_ne_dot (charsToBytes_lt (claimsChars claims)))
    (b64Encode_ne_dot (hmacBytes_lt hd.alg key _))
  dsimp only
  rw [hSplit]
  simp [b64SegToChars_encode, parseClaims_claimsChars]

/-- C1: validating a token freshly produced by issuance, at the same clock
instant and under the same environment secret, succeeds and returns the
claims whose subject is the issued subject. -/
theorem C1_roundtrip (env : Option String) (now : Nat) (s : String) :
    (generate_jwt env now s).bind (validate_jwt env now) =
      Except.ok { sub := s, exp := now + 24 * 60 * 60 } :=
  roundtrip_aux env now s

/-- C2: a token produced by generate_jwt fails validation with an expiry
error at every time strictly past its expires_at instant, even though its
signature is valid. -/
theorem C2_expiry (env : Option String) (now0 now : Nat) (s : String)
    (h : now > now0 + 24 * 60 * 60) :
    (generate_jwt env now0 s).bind (validate_jwt env now) =
      Except.error JwtError.ExpiredSignature := by
  show validate_jwt env now
    (encodeToken Header.default { sub := s, exp := now0 + 24 * 60 * 60 } (generateJwtSecret env)) = _
  unfold validate_jwt
  rw [show generateJwtSecret env = validateJwtSecret env from rfl]
  rw [show Header.default = (⟨Algorithm.HS256⟩ : Header) from rfl]
  rw [decodeToken_encodeToken]
  rw [if_pos (show Algorithm.HS256 ∈ Validation.default.algorithms by decide)]
  have hc : (Validation.default.validate_exp &&
      ((⟨s, now0 + 24 * 60 * 60⟩ : Claims).exp + Validation.default.leeway < now : Bool)) = true := by
    simp [Validation.default]
    omega
  rw [if_pos hc]

theorem C2_expiry_witness :
    86401 > 0 + 24 * 60 * 60 ∧
    (generate_jwt none 0 "tester").bind (validate_jwt none 86401) =
      Except.error JwtError.ExpiredSignature :=
  ⟨by omega, C2_expiry none 0 86401 "tester" (by omega)⟩

/-- C7: the token produced by generate_jwt carries an expires_at equal to
the issuance clock reading plus exactly 24 hours, for every subject and
every environment state. -/
theorem C7_lifetime (env : Option String) (now : Nat) (s : String) (t : String)
    (h : generate_jwt env now s = Except.ok t) : tokenExp t = some (now + 24 * 60 * 60) := by
  have ht : encodeToken Header.default { sub := s, exp := now + 24 * 60 * 60 }
      (generateJwtSecret env) = t := by
    cases h
    rfl
  rw [← ht, tokenExp_encodeToken]

theorem C7_lifetime_witness :
    generate_jwt none 5 "tester" =
      Except.ok (encodeToken Header.default { sub := "tester", exp := 5 + 24 * 60 * 60 }
        (generateJwtSecret none)) ∧
    tokenExp (encodeToken Header.default { sub := "tester", exp := 5 + 24 * 60 * 60 }
      (generateJwtSecret none)) = some (5 + 24 * 60 * 60) :=
  ⟨rfl, C7_lifetime none 5 "tester" _ rfl⟩

/-- C9: a token whose header declares any algorithm other than HS256 is
rejected by validate_jwt with an algorithm error, even when its signature
is valid under the declared algorithm and the shared secret. -/
theorem C9_alg_confusion (a : Algorithm) (ha : a ≠ Algorithm.HS256) (env : Option String)
    (now0 now : Nat) (s : String) :
    validate_jwt env now
      (encodeToken ⟨a⟩ { sub := s, exp := now0 + 24 * 60 * 60 } (validateJwtSecret env)) =
      Except.error JwtError.InvalidAlgorithm := by
  unfold validate_jwt
  rw [decodeToken_encodeToken]
  rw [if_neg (by simp [Validation.default, ha])]

theorem C9_alg_confusion_witness :
    Algorithm.HS384 ≠ Algorithm.HS256 ∧
    validate_jwt none 0
      (encodeToken ⟨Algorithm.HS384⟩ { sub := "tester", exp := 0 + 24 * 60 * 60 }
        (validateJwtSecret none)) = Except.error JwtError.InvalidAlgorithm :=
  ⟨by decide, C9_alg_confusion Algorithm.HS384 (by decide) none 0 0 "tester"⟩

/-- C10: the empty subject is accepted end to end: issuance for the empty
string succeeds and immediate validation returns the claims with the empty
subject; no emptiness check exists at either side. -/
theorem C10_empty_subject (env : Option String) (now : Nat) :
    (generate_jwt env now "").isOk = true ∧
    (generate_jwt env now "").bind (validate_jwt env now) =
      Except.ok { sub := "", exp := now + 24 * 60 * 60 } :=
  ⟨rfl, roundtrip_aux env now ""⟩

theorem matchLit_mem : ∀ p l r : List Char, matchLit p l = some r → ∀ c ∈ p, c ∈ l := by
  intro p
  induction p with
  | nil => intro l r _ c hc; simp at hc
  | cons x ps ih =>
    intro l r h c hc
    cases l with
    | nil => simp [matchLit] at h
    | cons d ls =>
      rw [matchLit] at h
      split at h
      case isTrue hd =>
        rcases List.mem_cons.mp hc with h1 | h1
        · subst h1
          subst hd
          exact List.mem_cons_self _ _
        · exact List.mem_cons_of_mem _ (ih ls r h c h1)
      case isFalse => exact absurd h (by simp)

theorem encodeToken_chars (hd : Header) (claims : Claims) (key : String) :
    ∀ c ∈ (encodeToken hd claims key).data, c = '.' ∨ (∃ v, v < 64 ∧ c = b64c v) := by
  intro c hc
  unfold encodeToken at hc
  have hmem : c ∈ b64Encode (charsToBytes (headerChars hd.alg)) ++
      '.' :: (b64Encode (charsToBytes (claimsChars claims)) ++
        '.' :: b64Encode (hmacBytes hd.alg key (b64Encode (charsToBytes (headerChars hd.alg)) ++
          '.' :: b64Encode (charsToBytes (claimsChars claims))))) := hc
  have fromSeg : ∀ (bs : List Nat), (∀ b ∈ bs, b < 256) → c ∈ b64Encode bs →
      ∃ v, v < 64 ∧ c = b64c v := by
    intro bs hbs hcin
    rcases List.mem_map.mp hcin with ⟨v, hv, rfl⟩
    exact ⟨v, sixbits_lt bs hbs v hv, rfl⟩
  rcases List.mem_append.mp hmem with h1 | h1
  · exact Or.inr (fromSeg _ (charsToBytes_lt _) h1)
  rcases List.mem_cons.mp h1 with h2 | h2
  · exact Or.inl h2
  rcases List.mem_append.mp h2 with h3 | h3
  · exact Or.inr (fromSeg _ (charsToBytes_lt _) h3)
  rcases List.mem_cons.mp h3 with h4 | h4
  · exact Or.inl h4
  · exact Or.inr (fromSeg _ (hmacBytes_lt _ _ _) h4)

theorem colon_not_in_token (hd : Header) (claims : Claims) (key : String) :
    ':' ∉ (encodeToken hd claims key).data := by
  intro hc
  rcases encodeToken_chars hd claims key ':' hc with h | ⟨v, hv, h⟩
  · exact absurd h (by decide)
  · have h1 := b64v_b64c hv
    rw [← h] at h1
    rw [show b64v ':' = none from by decide] at h1
    exact Option.noConfusion h1

/-- C3: on the issuance path, a request whose user carries an id leads to a
successful generate_jwt, yet the handler answers with status 500 carrying
the token as its body, because a compact token never starts with the
literal JWT prefix the handler tests for. -/
theorem C3_success_returns_500 (env : Option String) (now : Nat) (idv : String) (info : User)
    (h : info.id = some idv) :
    ∃ t : String, generate_jwt env now idv = Except.ok t ∧
      create_jwt_for_user env now info = HandlerOutcome.response 500 (jsonBody t) := by
  refine ⟨encodeToken Header.default { sub := idv, exp := now + 24 * 60 * 60 }
    (generateJwtSecret env), rfl, ?_⟩
  unfold create_jwt_for_user
  rw [h]
  dsimp only
  rw [show generate_jwt env now idv = Except.ok (encodeToken Header.default
    { sub := idv, exp := now + 24 * 60 * 60 } (generateJwtSecret env)) from rfl]
  have hm : matchLit ['J', 'W', 'T', ':'] (encodeToken Header.default
      { sub := idv, exp := now + 24 * 60 * 60 } (generateJwtSecret env)).data = none := by
    cases hml : matchLit ['J', 'W', 'T', ':'] (encodeToken Header.default
        { sub := idv, exp := now + 24 * 60 * 60 } (generateJwtSecret env)).data with
    | none => rfl
    | some r =>
      have := matchLit_mem _ _ _ hml ':' (by decide)
      exact absurd this (colon_not_in_token _ _ _)
  dsimp only
  rw [hm]
  simp

/-- The user of the integration tests of src/handlers.rs, lines 240 to 251,
with the optional fields present. -/
def testUser : User :=
  { id := some "813B6B04-DFBB-4EED-B820-2372216A2367", user_id := "891009", name := "Jhon",
    last_name := "Doe", email := "example@example.com", age := some 33,
    phone := some "123456789", address := some "Street", birthdate := "1992-05-31T00:00:00",
    place_birth := some "Example" }

/-- The same request body with the optional id field absent. -/
def userNoId : User :=
  { id := none, user_id := "891009", name := "Jhon", last_name := "Doe",
    email := "example@example.com", age := some 33, phone := some "123456789",
    address := some "Street", birthdate := "1992-05-31T00:00:00", place_birth := some "Example" }

theorem C3_success_returns_500_witness :
    testUser.id = some "813B6B04-DFBB-4EED-B820-2372216A2367" ∧
    ∃ t : String, generate_jwt none 0 "813B6B04-DFBB-4EED-B820-2372216A2367" = Except.ok t ∧
      create_jwt_for_user none 0 testUser = HandlerOutcome.response 500 (jsonBody t) :=
  ⟨rfl, C3_success_returns_500 none 0 "813B6B04-DFBB-4EED-B820-2372216A2367" testUser rfl⟩

/-- C4: the issuance handler raises an unrecoverable fault instead of a
typed result on the request body whose optional id field is absent: the
expect call panics with the placeholder message. -/
theorem C4_panics_on_missing_id (env : Option String) (now : Nat) :
    create_jwt_for_user env now userNoId = HandlerOutcome.panicked "REASON" := rfl

/-- C5: the middleware passes the original request through exactly when
validate_jwt succeeds on the presented bearer token; on failure it pairs a
401 error with the original request and the downstream handler is never
invoked. -/
theorem C5_gate {Req : Type} (env : Option String) (now : Nat) (req : Req)
    (credentials : BearerAuth) :
    (jwt_validator env now req credentials = Except.ok req ↔
      (validate_jwt env now credentials.token).isOk = true) ∧
    ((validate_jwt env now credentials.token).isOk = false →
      jwt_validator env now req credentials =
        Except.error (ErrorUnauthorized "Invalid token", req)) ∧
    (∀ (Resp : Type) (handler other : Req → Resp) (onErr : ActixError → Resp),
      (validate_jwt env now credentials.token).isOk = false →
      applyGate env now handler onErr req credentials = onErr (ErrorUnauthorized "Invalid token") ∧
      applyGate env now handler onErr req credentials =
        applyGate env now other onErr req credentials) := by
  unfold applyGate jwt_validator
  cases hv : validate_jwt env now credentials.token with
  | ok c => simp [Except.isOk, Except.toBool, hv]
  | error e => simp [Except.isOk, Except.toBool, hv]

theorem C5_gate_witness :
    jwt_validator none 0 (7 : Nat) ⟨"bad"⟩ =
      Except.error (ErrorUnauthorized "Invalid token", 7) :=
  (@C5_gate Nat none 0 7 ⟨"bad"⟩).2.1 (by decide)

/-- C6: issuer and verifier derive the signing secret identically: both read
the JWT_SECRET environment variable and fall back to the constant secret
when it is unset. -/
theorem C6_secret :
    (∀ env : Option String, generateJwtSecret env = validateJwtSecret env) ∧
    generateJwtSecret none = "secret" ∧ validateJwtSecret none = "secret" ∧
    (∀ s : String, generateJwtSecret (some s) = s ∧ validateJwtSecret (some s) = s) :=
  ⟨fun _ => rfl, rfl, rfl, fun _ => ⟨rfl, rfl⟩⟩

/-- C8: every string that is not structurally a valid three-segment signed
token fails validation, whatever the environment and the clock. -/
theorem C8_malformed (env : Option String) (now : Nat) (g : String)
    (h : wellFormedToken g = false) : (validate_jwt env now g).isOk = false := by
  cases hx : (validate_jwt env now g).isOk with
  | false => rfl
  | true =>
    have hw := validate_ok_wellFormed env now g hx
    rw [h] at hw
    exact Bool.noConfusion hw

theorem C8_malformed_witness :
    wellFormedToken "non-existent_token" = false ∧
    (validate_jwt none 0 "non-existent_token").isOk = false :=
  ⟨by decide, C8_malformed none 0 "non-existent_token" (by decide)⟩

end SafeUser
